import Mathlib

/-!
Verification of the outline cache and derived-view layer of the Workflowy
MCP server (`src/index.ts`, class `WorkflowyClient`).

The embedding models:
* the node cache (`nodeCache : {data, timestamp, ttl}`) and `getAllNodes`
  (freshness check, fetch, rate-limit fallback) as an explicit state
  transition parameterised by the adapter's outcome;
* `searchNodes` as a pure function of the snapshot;
* `getNodeWithChildren` as a depth-bounded recursive function over the
  flat snapshot;
* the six mutation operations (`createNode`, `updateNode`, `deleteNode`,
  `moveNode`, `completeNode`, `uncompleteNode`) as state transitions
  parameterised by the adapter call's outcome;
* the `workflowy_get_node_hierarchy` dispatch case (`depth || 1`);
* a small explicit-reference (heap) model of `getAllNodes`, used to settle
  the copy-versus-reference claims that a pure value model cannot express.

JavaScript numbers are modelled as `Int` (all the arithmetic the code
performs on them is integral: `Date.now()` differences, depth counters,
retry hints); JavaScript truthiness on strings/numbers is modelled
explicitly (`none`/empty string/zero are falsy).
-/

/-- One outline node, with exactly the fields the core code reads
(`id`, `parent_id`, `name`, `note`); nodes come from untyped JSON, so
`parent_id`, `name` and `note` may be absent (`none`). -/
structure Node where
  id : String
  parent_id : Option String
  name : Option String
  note : Option String
deriving DecidableEq, Repr

/-- The error taxonomy of the layer: `rateLimited` (429 from full export
with no fallback), `notFound` (unknown id in hierarchy lookup), and
`upstream` (any other adapter failure, propagated unchanged). -/
inductive WError where
  | rateLimited (retryAfterSeconds : Int)
  | notFound (nodeId : String)
  | upstream (status : Int) (message : String)
deriving DecidableEq, Repr

/-- Outcome of one call to the adapter's full export (`GET /nodes-export`):
success carries `response.data.nodes` (absent in the payload is `none`),
a 429 carries the optional `error.response.data?.retry_after` hint, and
any other failure is carried opaquely. -/
inductive FetchOutcome where
  | success (nodes : Option (List Node))
  | rateLimited (retryAfter : Option Int)
  | failure (err : WError)
deriving DecidableEq, Repr

/-- The node cache (`this.nodeCache`): `data : any[] | null`,
`timestamp : number | null`, and the configured TTL in milliseconds. -/
structure CacheState where
  data : Option (List Node)
  timestamp : Option Int
  ttl : Int
deriving DecidableEq, Repr

/-- `const cacheAge = this.nodeCache.timestamp ? now - this.nodeCache.timestamp : Infinity`.
`none` stands for `Infinity`; note the JS truthiness check, under which a
timestamp equal to `0` also yields `Infinity`. -/
def cacheAge (st : CacheState) (now : Int) : Option Int :=
  match st.timestamp with
  | some t => if t == 0 then none else some (now - t)
  | none => none

/-- `cacheAge < this.nodeCache.ttl`, where `cacheAge` may be `Infinity`
(`none`), which compares greater than every finite TTL. -/
def ageLt (a : Option Int) (ttl : Int) : Bool :=
  match a with
  | some v => decide (v < ttl)
  | none => false

/-- Decidable equality for `Except`, needed to evaluate closed claims
about fallible operations. -/
instance {ε α : Type} [DecidableEq ε] [DecidableEq α] :
    DecidableEq (Except ε α) := fun
  | .error a, .error b =>
      if h : a = b then .isTrue (by rw [h]) else .isFalse (by simp [h])
  | .error _, .ok _ => .isFalse (by simp)
  | .ok _, .error _ => .isFalse (by simp)
  | .ok a, .ok b =>
      if h : a = b then .isTrue (by rw [h]) else .isFalse (by simp [h])

/-- Result of one `getAllNodes` call: the returned value (or error), the
cache state after the call, and how many full-export calls were issued
(0 or 1). -/
structure GetAllResult where
  result : Except WError (List Node)
  state : CacheState
  fetchCalls : Nat
deriving DecidableEq, Repr

/-- `const retryAfter = error.response.data?.retry_after || 60`: the
optional chain yields `undefined` when the field is absent, and `|| 60`
replaces every falsy value — so both an absent hint and a hint of `0`
become 60. -/
def retryHint (retryOpt : Option Int) : Int :=
  match retryOpt with
  | some r => if r == 0 then 60 else r
  | none => 60

/-- The `try`/`catch` block of `getAllNodes` (lines 58-82): attempt the
full export.  On success cache `response.data.nodes || []` together with
`now` and return it.  On a 429, compute
`retryAfter = error.response.data?.retry_after || 60` (note: a falsy hint,
i.e. an absent or zero `retry_after`, becomes 60); if stale data exists
return it with the entry untouched, otherwise fail with `rateLimited`.
Any other error propagates with the entry untouched. -/
def refreshCache (now : Int) (st : CacheState) (fetch : FetchOutcome) : GetAllResult :=
  match fetch with
  | .success nodesOpt =>
      let nodes := nodesOpt.getD []
      ⟨.ok nodes, ⟨some nodes, some now, st.ttl⟩, 1⟩
  | .rateLimited retryOpt =>
      match st.data with
      | some d => ⟨.ok d, st, 1⟩
      | none => ⟨.error (.rateLimited (retryHint retryOpt)), st, 1⟩
  | .failure e => ⟨.error e, st, 1⟩

/-- `getAllNodes(forceRefresh)` (lines 47-83): if `this.nodeCache.data`
is non-null (arrays, including `[]`, are truthy), the age is under the
TTL and no refresh is forced, return the cached array with no network
call; otherwise run the fetch/fallback logic of `refreshCache`. -/
def getAllNodes (forceRefresh : Bool) (now : Int) (st : CacheState)
    (fetch : FetchOutcome) : GetAllResult :=
  match st.data with
  | some d =>
      if ageLt (cacheAge st now) st.ttl && !forceRefresh then ⟨.ok d, st, 0⟩
      else refreshCache now st fetch
  | none => refreshCache now st fetch

/-- A sequence of `getAllNodes` calls (each given its `forceRefresh` flag,
clock reading and would-be adapter outcome), threading the cache state and
summing the full-export calls actually issued. -/
def runReads (st : CacheState) :
    List (Bool × Int × FetchOutcome) →
      List (Except WError (List Node)) × CacheState × Nat
  | [] => ([], st, 0)
  | (f, t, fr) :: rest =>
      let r := getAllNodes f t st fr
      let (rs, st2, c) := runReads r.state rest
      (r.result :: rs, st2, r.fetchCalls + c)

/-- `invalidateCache()` (lines 86-92): sets `data` and `timestamp` to
null unconditionally (the inner `if` only logs). -/
def invalidateCache (st : CacheState) : CacheState :=
  ⟨none, none, st.ttl⟩

/-- JavaScript truthiness of a possibly-absent string: `undefined`/`null`
and the empty string are falsy. -/
def truthyStr (s : Option String) : Bool :=
  match s with
  | some v => !(v == "")
  | none => false

/-- Character-list version of "starts with": the first argument is the
pattern. -/
def charsStartWith : List Char → List Char → Bool
  | [], _ => true
  | _ :: _, [] => false
  | p :: ps, c :: cs => p == c && charsStartWith ps cs

/-- Character-list version of JavaScript `String.prototype.includes`:
does the pattern occur contiguously somewhere in the text? -/
def charsContain (pat : List Char) : List Char → Bool
  | [] => charsStartWith pat []
  | c :: cs => charsStartWith pat (c :: cs) || charsContain pat cs

/-- `s.includes(pat)`. -/
def strIncludes (s pat : String) : Bool :=
  charsContain pat.toList s.toList

/-- `s.toLowerCase()`, modelled characterwise with `Char.toLower` (the
two agree on the ASCII inputs the claims exercise). -/
def strToLower (s : String) : String :=
  ⟨s.toList.map Char.toLower⟩

/-- The match test applied to each node by `searchNodes` (lines 114-124):
check the name when `searchName` is set and `node.name` is truthy, then
the note when `searchNote` is set and `node.note` is truthy; each field is
lowercased first unless the search is case sensitive.  The code's
early-return-name-then-note control flow is the disjunction of the two
tests. -/
def nodeMatches (searchName searchNote caseSensitive : Bool)
    (searchQuery : String) (node : Node) : Bool :=
  (match node.name with
   | some nm =>
       searchName && !(nm == "") &&
         strIncludes (if caseSensitive then nm else strToLower nm) searchQuery
   | none => false) ||
  (match node.note with
   | some nt =>
       searchNote && !(nt == "") &&
         strIncludes (if caseSensitive then nt else strToLower nt) searchQuery
   | none => false)

/-- `searchNodes(query, options)` (lines 95-127), as a pure function of
the snapshot the cache returned: lower the query unless case sensitive,
filter the snapshot in order, and truncate with `slice(0, maxResults)`.
The option fields carry the defaults the code destructures
(`searchName = true, searchNote = true, caseSensitive = false,
maxResults = 100`) already applied. -/
def searchNodesPure (allNodes : List Node) (query : String)
    (searchName searchNote caseSensitive : Bool) (maxResults : Nat) :
    List Node :=
  let searchQuery := if caseSensitive then query else strToLower query
  let results :=
    allNodes.filter (nodeMatches searchName searchNote caseSensitive searchQuery)
  results.take maxResults

/-- Modelled from the spec (search contract of section 4.2, as the claim
reads it): a node matches when, under the configured case sensitivity, the
query is a substring of its display text (when `matchName`) or of its note
text (when `matchNote` and a note is present).  Used only to compare the
spec's match predicate against the code's. -/
def matchesUnderCase (caseSensitive : Bool) (query text : String) : Bool :=
  if caseSensitive then strIncludes text query
  else strIncludes (strToLower text) (strToLower query)

/-- Modelled from the spec: the claim's match predicate, verbatim — no
truthiness guard on the display text, and a mere presence guard on the
note. -/
def specMatchesClaimed (searchName searchNote caseSensitive : Bool)
    (query : String) (node : Node) : Bool :=
  (searchName && matchesUnderCase caseSensitive query (node.name.getD "")) ||
  (searchNote && node.note.isSome &&
    matchesUnderCase caseSensitive query (node.note.getD ""))

/-- Modelled from the spec, amended as the counterexample forces: name
matching additionally requires the display text to be present and
non-empty, and note matching requires the note to be non-empty (not
merely present). -/
def specMatchesAmended (searchName searchNote caseSensitive : Bool)
    (query : String) (node : Node) : Bool :=
  (searchName && truthyStr node.name &&
    matchesUnderCase caseSensitive query (node.name.getD "")) ||
  (searchNote && truthyStr node.note &&
    matchesUnderCase caseSensitive query (node.note.getD ""))

/-- The spec-side search: filter the snapshot in order by the (amended)
match predicate and keep the first `maxResults` matches. -/
def searchSpecAmended (allNodes : List Node) (query : String)
    (searchName searchNote caseSensitive : Bool) (maxResults : Nat) :
    List Node :=
  (allNodes.filter
      (specMatchesAmended searchName searchNote caseSensitive query)).take
    maxResults

/-- The id-to-node index `new Map(allNodes.map(n => [n.id, n])).get(i)`:
with duplicate ids, later insertions overwrite earlier ones, so the last
node in snapshot order with the given id wins. -/
def mapGet (ns : List Node) (i : String) : Option Node :=
  match ns with
  | [] => none
  | n :: rest =>
      match mapGet rest i with
      | some m => some m
      | none => if n.id == i then some n else none

/-- `allNodes.filter(n => n.parent_id === nodeId)`: the direct children
of a node, in snapshot order. -/
def childrenOf (ns : List Node) (nodeId : String) : List Node :=
  ns.filter (fun n => n.parent_id == some nodeId)

/-- A materialized hierarchy result: the node's fields plus the optional
`children` field `getNodeWithChildren` attaches when `depth > 0`. -/
inductive NTree where
  | mk (info : Node) (children : Option (List NTree))
deriving Repr

/-- The node fields of a hierarchy result. -/
def NTree.info : NTree → Node
  | ⟨n, _⟩ => n

/-- The attached `children` field of a hierarchy result (absent when the
expansion stopped at depth 0). -/
def NTree.children : NTree → Option (List NTree)
  | ⟨_, cs⟩ => cs

/-- Sequential fallible map, mirroring the `for (const child of ...)
{ await ... }` loop: the first failure aborts and propagates. -/
def mapMExcept (f : α → Except WError β) : List α → Except WError (List β)
  | [] => .ok []
  | a :: rest =>
      match f a with
      | .error e => .error e
      | .ok b =>
          match mapMExcept f rest with
          | .error e => .error e
          | .ok bs => .ok (b :: bs)

/-- `getNodeWithChildren(nodeId, depth)` (lines 130-157) for non-negative
integral depths (the fuel is the depth counter).  Build the id index,
fail with `notFound` when the id is absent; return a copy of the node;
when `depth > 0` attach the direct children as copies; when `depth > 1`
replace each attached child by the recursive result for `child.id` at
`depth - 1` (the code's `Object.assign(child, childWithDescendants)`
overwrites every field of the copied child, since the recursive result is
itself spread from a full node).  Recursion is bounded only by the
decrementing depth. -/
def getNodeWithChildren (ns : List Node) : Nat → String → Except WError NTree
  | 0, nodeId =>
      match mapGet ns nodeId with
      | none => .error (.notFound nodeId)
      | some node => .ok ⟨node, none⟩
  | 1, nodeId =>
      match mapGet ns nodeId with
      | none => .error (.notFound nodeId)
      | some node =>
          .ok ⟨node, some ((childrenOf ns nodeId).map (fun c => ⟨c, none⟩))⟩
  | d + 2, nodeId =>
      match mapGet ns nodeId with
      | none => .error (.notFound nodeId)
      | some node =>
          match mapMExcept (fun c => getNodeWithChildren ns (d + 1) c.id)
              (childrenOf ns nodeId) with
          | .error e => .error e
          | .ok cs => .ok ⟨node, some cs⟩

/-- `getNodeWithChildren` for an arbitrary (possibly negative) integral
JavaScript depth.  The code tests `depth > 0` / `depth > 1` and recurses
on `depth - 1`, so every non-positive depth behaves like depth `0` and
the behavior factors through `Int.toNat`. -/
def getNodeWithChildrenJS (ns : List Node) (nodeId : String) (depth : Int) :
    Except WError NTree :=
  getNodeWithChildren ns depth.toNat nodeId

/-- Modelled from the spec (hierarchy contract of section 4.2, as claim
C6 reads it): fail with `NotFound` when the id is absent from the index;
attach no children at depth 0; at positive depth attach the direct
children, each expanded by recursing with `depth - 1`, until the depth
counter reaches 0.  Used to compare the spec's uniform recursion against
the code. -/
def getWithChildrenSpec (ns : List Node) : Nat → String → Except WError NTree
  | 0, nodeId =>
      match mapGet ns nodeId with
      | none => .error (.notFound nodeId)
      | some node => .ok ⟨node, none⟩
  | d + 1, nodeId =>
      match mapGet ns nodeId with
      | none => .error (.notFound nodeId)
      | some node =>
          match mapMExcept (fun c => getWithChildrenSpec ns d c.id)
              (childrenOf ns nodeId) with
          | .error e => .error e
          | .ok cs => .ok ⟨node, some cs⟩

/-- The `workflowy_get_node_hierarchy` dispatch case (lines 590-592):
`workflowy.getNodeWithChildren(nodeId, depth || 1)` — an absent depth and
a zero depth (both falsy) are passed on as `1`. -/
def handleGetNodeHierarchy (ns : List Node) (nodeId : String)
    (depth : Option Int) : Except WError NTree :=
  getNodeWithChildrenJS ns nodeId
    (match depth with
     | none => 1
     | some d => if d == 0 then 1 else d)

mutual

/-- Height of a materialized hierarchy: 1 for a node with no attached
children field, otherwise 1 plus the tallest attached child. -/
def NTree.height : NTree → Nat
  | ⟨_, none⟩ => 1
  | ⟨_, some cs⟩ => 1 + heightList cs

/-- Tallest tree in a list of hierarchy results (0 for the empty list). -/
def heightList : List NTree → Nat
  | [] => 0
  | t :: ts => max t.height (heightList ts)

end

mutual

/-- Number of descendants (attached nodes strictly below the root) in a
materialized hierarchy. -/
def NTree.descCount : NTree → Nat
  | ⟨_, none⟩ => 0
  | ⟨_, some cs⟩ => descCountList cs

/-- Total number of nodes in a list of hierarchy results. -/
def descCountList : List NTree → Nat
  | [] => 0
  | t :: ts => 1 + t.descCount + descCountList ts

end

/-- Height of a hierarchy result, 0 for a failed lookup. -/
def heightE : Except WError NTree → Nat
  | .error _ => 0
  | .ok t => t.height

/-- A node that names itself as its own parent — the cyclic snapshot of
property P7. -/
def selfNode : Node := ⟨"x", some "x", some "self", none⟩

/-- The expansion `getNodeWithChildren` produces for the snapshot
`[selfNode]` at depth 5: the node appears as its own descendant once per
depth level, five times in all. -/
def selfChain : NTree :=
  ⟨selfNode, some [⟨selfNode, some [⟨selfNode, some [⟨selfNode,
    some [⟨selfNode, some [⟨selfNode, none⟩]⟩]⟩]⟩]⟩]⟩

/-- Caller parameters of `createNode` (lines 159-165). -/
structure CreateParams where
  parentId : Option String
  name : String
  note : Option String
  priority : Option Int
  layoutMode : Option String
deriving DecidableEq, Repr

/-- Caller parameters of `updateNode` (lines 194-202). -/
structure UpdateParams where
  name : Option String
  note : Option String
  priority : Option Int
  layoutMode : Option String
deriving DecidableEq, Repr

/-- The wire shape the mutation operations build (`apiParams`): optional
snake_case fields, plus the nested `data.layoutMode`. -/
structure ApiParams where
  name : Option String
  parent_id : Option String
  note : Option String
  priority : Option Int
  dataLayoutMode : Option String
deriving DecidableEq, Repr

/-- The `apiParams` object `createNode` builds (lines 166-175): `name`
always; `parent_id`, `note` and `data.layoutMode` only when truthy;
`priority` whenever it is not undefined. -/
def createApiParams (p : CreateParams) : ApiParams :=
  ⟨some p.name,
   if truthyStr p.parentId then p.parentId else none,
   if truthyStr p.note then p.note else none,
   p.priority,
   if truthyStr p.layoutMode then p.layoutMode else none⟩

/-- The `apiParams` object `updateNode` builds (lines 203-210): `name`,
`note` and `priority` whenever not undefined; `data.layoutMode` only when
truthy. -/
def updateApiParams (p : UpdateParams) : ApiParams :=
  ⟨p.name, none, p.note, p.priority,
   if truthyStr p.layoutMode then p.layoutMode else none⟩

/-- The `apiParams` object `moveNode` builds (lines 224-227): the new
`parent_id` always, `priority` whenever not undefined. -/
def moveApiParams (parentId : String) (priority : Option Int) : ApiParams :=
  ⟨none, some parentId, none, priority, none⟩

/-- `createNode` (lines 159-180): `await` the adapter call on the built
params; if it throws, the error propagates before `invalidateCache()` is
reached; on success invalidate and return `response.data`.  The adapter
(`POST /nodes`) is a parameter; `α` is its opaque payload type. -/
def createNode (p : CreateParams) (adapter : ApiParams → Except WError α)
    (st : CacheState) : Except WError α × CacheState :=
  match adapter (createApiParams p) with
  | .ok d => (.ok d, invalidateCache st)
  | .error e => (.error e, st)

/-- `updateNode` (lines 194-215): adapter call on
`POST /nodes/:id` with the built params, then invalidate on success. -/
def updateNode (nodeId : String) (p : UpdateParams)
    (adapter : String → ApiParams → Except WError α) (st : CacheState) :
    Except WError α × CacheState :=
  match adapter nodeId (updateApiParams p) with
  | .ok d => (.ok d, invalidateCache st)
  | .error e => (.error e, st)

/-- `deleteNode` (lines 217-221): adapter call on `DELETE /nodes/:id`,
then invalidate on success. -/
def deleteNode (nodeId : String) (adapter : String → Except WError α)
    (st : CacheState) : Except WError α × CacheState :=
  match adapter nodeId with
  | .ok d => (.ok d, invalidateCache st)
  | .error e => (.error e, st)

/-- `moveNode` (lines 223-232): adapter call on `POST /nodes/:id/move`
with the built params, then invalidate on success. -/
def moveNode (nodeId parentId : String) (priority : Option Int)
    (adapter : String → ApiParams → Except WError α) (st : CacheState) :
    Except WError α × CacheState :=
  match adapter nodeId (moveApiParams parentId priority) with
  | .ok d => (.ok d, invalidateCache st)
  | .error e => (.error e, st)

/-- `completeNode` (lines 234-238): adapter call on
`POST /nodes/:id/complete`, then invalidate on success. -/
def completeNode (nodeId : String) (adapter : String → Except WError α)
    (st : CacheState) : Except WError α × CacheState :=
  match adapter nodeId with
  | .ok d => (.ok d, invalidateCache st)
  | .error e => (.error e, st)

/-- `uncompleteNode` (lines 240-244): adapter call on
`POST /nodes/:id/uncomplete`, then invalidate on success. -/
def uncompleteNode (nodeId : String) (adapter : String → Except WError α)
    (st : CacheState) : Except WError α × CacheState :=
  match adapter nodeId with
  | .ok d => (.ok d, invalidateCache st)
  | .error e => (.error e, st)

/-- A heap of array objects, giving JavaScript arrays their identity: a
reference is an index, and two references are the same array exactly when
the indices are equal.  Used to settle copy-versus-reference claims. -/
structure Heap where
  arrays : List (List Node)
deriving DecidableEq, Repr

/-- Allocate a fresh array, returning its reference. -/
def Heap.alloc (h : Heap) (v : List Node) : Nat × Heap :=
  (h.arrays.length, ⟨h.arrays ++ [v]⟩)

/-- Dereference. -/
def Heap.get (h : Heap) (r : Nat) : List Node :=
  h.arrays.getD r []

/-- The node cache in the reference model: `data` holds a reference to
an array in the heap, or null. -/
structure CacheRState where
  dataRef : Option Nat
  timestamp : Option Int
  ttl : Int
deriving DecidableEq, Repr

/-- Result of one `getAllNodes` call in the reference model: the returned
array reference (or error), the cache state, and the heap. -/
structure GetAllRefResult where
  ref : Except WError Nat
  state : CacheRState
  heap : Heap
deriving DecidableEq, Repr

/-- The `try`/`catch` block of `getAllNodes` in the reference model.  A
successful fetch allocates one fresh array (the parsed response body),
stores its reference in the cache, and returns that same reference
(line 62 caches `nodes` and line 65 returns the very same array).  The
rate-limited fallback returns the cached reference itself (line 75). -/
def refreshCacheRef (now : Int) (st : CacheRState) (heap : Heap)
    (fetch : FetchOutcome) : GetAllRefResult :=
  match fetch with
  | .success nodesOpt =>
      let (r, heap2) := heap.alloc (nodesOpt.getD [])
      ⟨.ok r, ⟨some r, some now, st.ttl⟩, heap2⟩
  | .rateLimited retryOpt =>
      match st.dataRef with
      | some r => ⟨.ok r, st, heap⟩
      | none => ⟨.error (.rateLimited (retryHint retryOpt)), st, heap⟩
  | .failure e => ⟨.error e, st, heap⟩

/-- The cache age check of `getAllNodes`, on the reference-model state. -/
def cacheAgeRef (st : CacheRState) (now : Int) : Option Int :=
  match st.timestamp with
  | some t => if t == 0 then none else some (now - t)
  | none => none

/-- `getAllNodes` in the reference model: on a cache hit, line 54
(`return this.nodeCache.data`) returns the cached array reference itself —
no copy is made. -/
def getAllNodesRef (forceRefresh : Bool) (now : Int) (st : CacheRState)
    (heap : Heap) (fetch : FetchOutcome) : GetAllRefResult :=
  match st.dataRef with
  | some r =>
      if ageLt (cacheAgeRef st now) st.ttl && !forceRefresh then
        ⟨.ok r, st, heap⟩
      else refreshCacheRef now st heap fetch
  | none => refreshCacheRef now st heap fetch

/-- `searchNodes` in the reference model: obtain the snapshot through
`getAllNodes`, then build a new result list by filtering and truncating —
the result is a fresh value, and the heap is touched only by
`getAllNodesRef` itself. -/
def searchNodesRef (query : String)
    (searchName searchNote caseSensitive : Bool) (maxResults : Nat)
    (now : Int) (st : CacheRState) (heap : Heap) (fetch : FetchOutcome) :
    Except WError (List Node) × CacheRState × Heap :=
  match getAllNodesRef false now st heap fetch with
  | ⟨.ok r, st2, heap2⟩ =>
      (.ok (searchNodesPure (heap2.get r) query searchName searchNote
        caseSensitive maxResults), st2, heap2)
  | ⟨.error e, st2, heap2⟩ => (.error e, st2, heap2)

/-- `getNodeWithChildren` in the reference model: obtain the snapshot
through `getAllNodes`, then build the result tree out of copies
(`{...node}`) — again a fresh value, with the heap touched only by
`getAllNodesRef`. -/
def getNodeWithChildrenRef (nodeId : String) (depth : Nat) (now : Int)
    (st : CacheRState) (heap : Heap) (fetch : FetchOutcome) :
    Except WError NTree × CacheRState × Heap :=
  match getAllNodesRef false now st heap fetch with
  | ⟨.ok r, st2, heap2⟩ =>
      (getNodeWithChildren (heap2.get r) depth nodeId, st2, heap2)
  | ⟨.error e, st2, heap2⟩ => (.error e, st2, heap2)

/-- The P6 example snapshot: `root -> {a, b}`, `a -> {c}`. -/
def ns6 : List Node :=
  [⟨"root", none, some "r", none⟩,
   ⟨"a", some "root", some "a", none⟩,
   ⟨"b", some "root", some "b", none⟩,
   ⟨"c", some "a", some "c", none⟩]

/-- A straight-line snapshot of seven nodes `a0 -> a1 -> ... -> a6`, used
to observe how deep a hierarchy request actually expands. -/
def chainNodes : List Node :=
  [⟨"a0", none, some "a0", none⟩,
   ⟨"a1", some "a0", some "a1", none⟩,
   ⟨"a2", some "a1", some "a2", none⟩,
   ⟨"a3", some "a2", some "a3", none⟩,
   ⟨"a4", some "a3", some "a4", none⟩,
   ⟨"a5", some "a4", some "a5", none⟩,
   ⟨"a6", some "a5", some "a6", none⟩]

/-- The full expansion of `chainNodes` from `a0` at depth 6: the chain
down to and including `a6`, seven levels in all. -/
def chainTree6 : NTree :=
  ⟨⟨"a0", none, some "a0", none⟩, some
   [⟨⟨"a1", some "a0", some "a1", none⟩, some
    [⟨⟨"a2", some "a1", some "a2", none⟩, some
     [⟨⟨"a3", some "a2", some "a3", none⟩, some
      [⟨⟨"a4", some "a3", some "a4", none⟩, some
       [⟨⟨"a5", some "a4", some "a5", none⟩, some
        [⟨⟨"a6", some "a5", some "a6", none⟩, none⟩]⟩]⟩]⟩]⟩]⟩]⟩

/-- The expansion of `chainNodes` from `a0` at depth 5: it stops at `a5`
(six levels) and never reaches `a6`. -/
def chainTree5 : NTree :=
  ⟨⟨"a0", none, some "a0", none⟩, some
   [⟨⟨"a1", some "a0", some "a1", none⟩, some
    [⟨⟨"a2", some "a1", some "a2", none⟩, some
     [⟨⟨"a3", some "a2", some "a3", none⟩, some
      [⟨⟨"a4", some "a3", some "a4", none⟩, some
       [⟨⟨"a5", some "a4", some "a5", none⟩, none⟩]⟩]⟩]⟩]⟩]⟩

/-! ## Helper lemmas -/

/-- A read served from a fresh cache entry: no fetch, same data, state
untouched. -/
theorem getAllNodes_hit (st : CacheState) (now : Int) (d : List Node)
    (ts : Int) (fr : FetchOutcome) (hd : st.data = some d)
    (ht : st.timestamp = some ts) (hz : ¬ts = 0)
    (hfresh : now - ts < st.ttl) :
    getAllNodes false now st fr = ⟨.ok d, st, 0⟩ := by
  simp [getAllNodes, hd, cacheAge, ht, hz, ageLt, hfresh]

/-- Reads against a fresh entry neither fetch nor change the state, and
each returns the cached data. -/
theorem runReads_all_hit (nodes : List Node) (t0 ttl : Int) (hz : ¬t0 = 0)
    (reads : List (Int × FetchOutcome))
    (hfresh : ∀ p ∈ reads, p.1 - t0 < ttl) :
    runReads ⟨some nodes, some t0, ttl⟩
        (reads.map fun p => (false, p.1, p.2)) =
      (reads.map fun _ => .ok nodes, ⟨some nodes, some t0, ttl⟩, 0) := by
  induction reads with
  | nil => rfl
  | cons p rest ih =>
      obtain ⟨t, fr⟩ := p
      have hhit : getAllNodes false t ⟨some nodes, some t0, ttl⟩ fr =
          ⟨.ok nodes, ⟨some nodes, some t0, ttl⟩, 0⟩ :=
        getAllNodes_hit _ _ _ _ _ rfl rfl hz (hfresh (t, fr) (by simp))
      have hrest := ih (fun q hq => hfresh q (List.mem_cons_of_mem _ hq))
      simp [runReads, hhit, hrest]

/-! ## Claim theorems -/

/-- C3: each of the six mutation operations returns the adapter's outcome
verbatim; when the adapter call succeeds the cache entry is cleared
outright (no data, no timestamp; only the TTL configuration survives),
and when it fails the failure is propagated and the entry — data and
timestamp alike — is left exactly as it was (no invalidation before the
adapter confirms success, none on failure). -/
theorem mutations_invalidate_only_on_success :
    (∀ (α : Type) (p : CreateParams) (a : ApiParams → Except WError α)
        (st : CacheState),
      createNode p a st =
        (a (createApiParams p),
         match a (createApiParams p) with
         | .ok _ => (⟨none, none, st.ttl⟩ : CacheState)
         | .error _ => st)) ∧
    (∀ (α : Type) (nodeId : String) (p : UpdateParams)
        (a : String → ApiParams → Except WError α) (st : CacheState),
      updateNode nodeId p a st =
        (a nodeId (updateApiParams p),
         match a nodeId (updateApiParams p) with
         | .ok _ => (⟨none, none, st.ttl⟩ : CacheState)
         | .error _ => st)) ∧
    (∀ (α : Type) (nodeId : String) (a : String → Except WError α)
        (st : CacheState),
      deleteNode nodeId a st =
        (a nodeId,
         match a nodeId with
         | .ok _ => (⟨none, none, st.ttl⟩ : CacheState)
         | .error _ => st)) ∧
    (∀ (α : Type) (nodeId parentId : String) (priority : Option Int)
        (a : String → ApiParams → Except WError α) (st : CacheState),
      moveNode nodeId parentId priority a st =
        (a nodeId (moveApiParams parentId priority),
         match a nodeId (moveApiParams parentId priority) with
         | .ok _ => (⟨none, none, st.ttl⟩ : CacheState)
         | .error _ => st)) ∧
    (∀ (α : Type) (nodeId : String) (a : String → Except WError α)
        (st : CacheState),
      completeNode nodeId a st =
        (a nodeId,
         match a nodeId with
         | .ok _ => (⟨none, none, st.ttl⟩ : CacheState)
         | .error _ => st)) ∧
    (∀ (α : Type) (nodeId : String) (a : String → Except WError α)
        (st : CacheState),
      uncompleteNode nodeId a st =
        (a nodeId,
         match a nodeId with
         | .ok _ => (⟨none, none, st.ttl⟩ : CacheState)
         | .error _ => st)) := by
  refine ⟨?_, ?_, ?_, ?_, ?_, ?_⟩
  · intro α p a st
    cases h : a (createApiParams p) <;> simp [createNode, invalidateCache, h]
  · intro α nodeId p a st
    cases h : a nodeId (updateApiParams p) <;>
      simp [updateNode, invalidateCache, h]
  · intro α nodeId a st
    cases h : a nodeId <;> simp [deleteNode, invalidateCache, h]
  · intro α nodeId parentId priority a st
    cases h : a nodeId (moveApiParams parentId priority) <;>
      simp [moveNode, invalidateCache, h]
  · intro α nodeId a st
    cases h : a nodeId <;> simp [completeNode, invalidateCache, h]
  · intro α nodeId a st
    cases h : a nodeId <;> simp [uncompleteNode, invalidateCache, h]

/-- C10: a successful full export whose payload lacks a `nodes` field
caches the empty sequence together with the current timestamp and returns
it, and a later read within the freshness window serves that empty
snapshot with no network call. -/
theorem emptyNodes_cached_and_served (ttl now now2 : Int)
    (fr : FetchOutcome) (h0 : ¬now = 0) (h1 : now2 - now < ttl) :
    getAllNodes false now ⟨none, none, ttl⟩ (.success none) =
      ⟨.ok [], ⟨some [], some now, ttl⟩, 1⟩ ∧
    getAllNodes false now2 ⟨some [], some now, ttl⟩ fr =
      ⟨.ok [], ⟨some [], some now, ttl⟩, 0⟩ := by
  refine ⟨rfl, ?_⟩
  exact getAllNodes_hit _ _ _ _ _ rfl rfl h0 h1

/-- Witness for C10 at a concrete clock and TTL. -/
theorem emptyNodes_cached_and_served_w :
    (¬(1000 : Int) = 0) ∧ ((2000 : Int) - 1000 < 90000) ∧
    (getAllNodes false 1000 ⟨none, none, 90000⟩ (.success none) =
        ⟨.ok [], ⟨some [], some 1000, 90000⟩, 1⟩ ∧
      getAllNodes false 2000 ⟨some [], some 1000, 90000⟩
          (.failure (.upstream 500 "boom")) =
        ⟨.ok [], ⟨some [], some 1000, 90000⟩, 0⟩) :=
  ⟨by decide, by decide,
    emptyNodes_cached_and_served 90000 1000 2000 _ (by decide) (by decide)⟩

/-- C1 (amended): when the freshness guard does not serve from cache and
the full export is rejected as rate limited: if a prior entry exists the
call returns its sequence and leaves the whole entry untouched (so the
age measured from the unchanged timestamp strictly increases with the
clock); if no prior entry exists the call fails with `rateLimited`
carrying the upstream hint, defaulting to 60 seconds when the upstream
omitted the hint or supplied a falsy (zero) one. -/
theorem rateLimited_fallback (force : Bool) (now : Int) (st : CacheState)
    (retryOpt : Option Int) :
    (∀ d, st.data = some d →
      (ageLt (cacheAge st now) st.ttl && !force) = false →
      getAllNodes force now st (.rateLimited retryOpt) = ⟨.ok d, st, 1⟩) ∧
    (st.data = none →
      getAllNodes force now st (.rateLimited retryOpt) =
        ⟨.error (.rateLimited (retryHint retryOpt)), st, 1⟩) ∧
    (∀ t a1 a2 now2, st.timestamp = some t → now < now2 →
      cacheAge st now = some a1 → cacheAge st now2 = some a2 →
      a1 < a2) := by
  refine ⟨?_, ?_, ?_⟩
  · intro d hd hguard
    simp [getAllNodes, hd, hguard, refreshCache]
  · intro hd
    simp [getAllNodes, hd, refreshCache]
  · intro t a1 a2 now2 ht hlt h1 h2
    by_cases hz : t = 0
    · simp [cacheAge, ht, hz] at h1
    · simp [cacheAge, ht, hz] at h1 h2
      omega

/-- C1 as stated is false at a concrete input: with no prior entry and an
upstream `retry_after` of 0, the failure carries 60, not the upstream
hint. -/
theorem rateLimited_hint_cex :
    (getAllNodes false 1000 ⟨none, none, 90000⟩
        (.rateLimited (some 0))).result = .error (.rateLimited 60) ∧
    ¬(getAllNodes false 1000 ⟨none, none, 90000⟩
        (.rateLimited (some 0))).result = .error (.rateLimited 0) := by
  decide

/-- Witness for C1 at a concrete stale entry and a concrete empty
cache. -/
theorem rateLimited_fallback_w :
    ((⟨some [selfNode], some 10, 90000⟩ : CacheState).data =
        some [selfNode]) ∧
    ((ageLt (cacheAge ⟨some [selfNode], some 10, 90000⟩ 100000)
        (⟨some [selfNode], some 10, 90000⟩ : CacheState).ttl && !false) =
      false) ∧
    getAllNodes false 100000 ⟨some [selfNode], some 10, 90000⟩
        (.rateLimited none) =
      ⟨.ok [selfNode], ⟨some [selfNode], some 10, 90000⟩, 1⟩ :=
  ⟨rfl, by decide,
    (rateLimited_fallback false 100000 ⟨some [selfNode], some 10, 90000⟩
        none).1 [selfNode] rfl (by decide)⟩

/-- C2: a read that finds an entry younger than the freshness window
(with `forceRefresh` false) makes no network call, returns the cached
data and leaves the state untouched; and starting from an empty cache, a
read sequence inside the window triggers exactly one full-export call —
the first — after which every read returns the very data the first fetch
stored. -/
theorem freshWindow_at_most_one_fetch :
    (∀ (st : CacheState) (now : Int) (d : List Node) (ts : Int)
        (fr : FetchOutcome), st.data = some d → st.timestamp = some ts →
      ¬ts = 0 → now - ts < st.ttl →
      getAllNodes false now st fr = ⟨.ok d, st, 0⟩) ∧
    (∀ (ttl t0 : Int) (nodesOpt : Option (List Node))
        (reads : List (Int × FetchOutcome)), ¬t0 = 0 →
      (∀ p ∈ reads, p.1 - t0 < ttl) →
      getAllNodes false t0 ⟨none, none, ttl⟩ (.success nodesOpt) =
          ⟨.ok (nodesOpt.getD []),
           ⟨some (nodesOpt.getD []), some t0, ttl⟩, 1⟩ ∧
      runReads ⟨some (nodesOpt.getD []), some t0, ttl⟩
          (reads.map fun p => (false, p.1, p.2)) =
        (reads.map fun _ => .ok (nodesOpt.getD []),
         ⟨some (nodesOpt.getD []), some t0, ttl⟩, 0)) := by
  constructor
  · intro st now d ts fr hd ht hz hfresh
    exact getAllNodes_hit st now d ts fr hd ht hz hfresh
  · intro ttl t0 nodesOpt reads hz hfresh
    exact ⟨rfl, runReads_all_hit _ t0 ttl hz reads hfresh⟩

/-- Witness for C2: a concrete two-read sequence inside the window after
one successful fetch. -/
theorem freshWindow_at_most_one_fetch_w :
    (¬(50 : Int) = 0) ∧
    (∀ p ∈ ([(100, .failure (.upstream 500 "boom")),
             (200, .rateLimited none)] : List (Int × FetchOutcome)),
      p.1 - 50 < 90000) ∧
    (getAllNodes false 50 ⟨none, none, 90000⟩
        (.success (some [selfNode])) =
      ⟨.ok ((some [selfNode]).getD []),
       ⟨some ((some [selfNode]).getD []), some 50, 90000⟩, 1⟩ ∧
    runReads ⟨some ((some [selfNode]).getD []), some 50, 90000⟩
        (([(100, .failure (.upstream 500 "boom")),
           (200, .rateLimited none)] :
            List (Int × FetchOutcome)).map fun p => (false, p.1, p.2)) =
      (([(100, .failure (.upstream 500 "boom")),
         (200, .rateLimited none)] :
          List (Int × FetchOutcome)).map fun _ =>
            .ok ((some [selfNode]).getD []),
       ⟨some ((some [selfNode]).getD []), some 50, 90000⟩, 0)) :=
  ⟨by decide, by decide,
    freshWindow_at_most_one_fetch.2 90000 50 (some [selfNode])
      [(100, .failure (.upstream 500 "boom")), (200, .rateLimited none)]
      (by decide) (by decide)⟩

/-- Pointwise agreement of the code's match test with the amended spec
predicate. -/
theorem nodeMatches_eq_specAmended (sn snote cs : Bool) (q : String)
    (n : Node) :
    nodeMatches sn snote cs (if cs then q else strToLower q) n =
      specMatchesAmended sn snote cs q n := by
  cases hn : n.name <;> cases ht : n.note <;> cases cs <;>
    simp [nodeMatches, specMatchesAmended, truthyStr, matchesUnderCase,
      hn, ht, Bool.and_assoc, Bool.and_comm, Bool.and_left_comm]

/-- C5 (amended): `searchNodes` returns exactly the nodes matched by the
amended predicate — under the configured case sensitivity the query is a
substring of the display text (when names are searched and the display
text is present and non-empty) or of the note text (when notes are
searched and the note is present and non-empty) — in snapshot order,
truncated to the first `maxResults` matches; as an equation between pure
functions of the snapshot, the result is deterministic. -/
theorem searchNodes_eq_spec (ns : List Node) (q : String)
    (sn snote cs : Bool) (mr : Nat) :
    searchNodesPure ns q sn snote cs mr =
      searchSpecAmended ns q sn snote cs mr := by
  simp only [searchNodesPure, searchSpecAmended]
  rw [List.filter_congr (fun n _ => nodeMatches_eq_specAmended sn snote cs q n)]

/-- C5 as stated is false at a concrete input: a node whose display text
is the empty string is not returned by the code even though the empty
query is a substring of its (empty) display text. -/
theorem searchNodes_claim_cex :
    searchNodesPure [⟨"n1", none, some "", none⟩] "" true true false 100 =
      [] ∧
    (([⟨"n1", none, some "", none⟩] : List Node).filter
        (specMatchesClaimed true true false "")).take 100 =
      [⟨"n1", none, some "", none⟩] ∧
    ¬searchNodesPure [⟨"n1", none, some "", none⟩] "" true true false 100 =
      (([⟨"n1", none, some "", none⟩] : List Node).filter
          (specMatchesClaimed true true false "")).take 100 := by
  decide

/-- A successful index lookup returns a node of the snapshot bearing the
looked-up id. -/
theorem mapGet_mem (ns : List Node) (i : String) (n : Node)
    (h : mapGet ns i = some n) : n ∈ ns ∧ n.id = i := by
  induction ns with
  | nil => simp [mapGet] at h
  | cons m rest ih =>
      simp only [mapGet] at h
      cases hr : mapGet rest i with
      | some m2 =>
          rw [hr] at h
          cases h
          obtain ⟨h1, h2⟩ := ih hr
          exact ⟨List.mem_cons_of_mem _ h1, h2⟩
      | none =>
          rw [hr] at h
          by_cases hm : m.id = i
          · simp [hm] at h
            subst h
            exact ⟨List.mem_cons_self m rest, hm⟩
          · simp [hm] at h

/-- The index lookup fails exactly when no node of the snapshot bears the
id. -/
theorem mapGet_eq_none_iff (ns : List Node) (i : String) :
    mapGet ns i = none ↔ ∀ n ∈ ns, ¬n.id = i := by
  induction ns with
  | nil => simp [mapGet]
  | cons m rest ih =>
      simp only [mapGet]
      cases hr : mapGet rest i with
      | some m2 =>
          obtain ⟨h1, h2⟩ := mapGet_mem rest i m2 hr
          simp only [List.mem_cons]
          constructor
          · intro h
            exact absurd h (by simp)
          · intro h
            exact absurd h2 (h m2 (Or.inr h1))
      | none =>
          by_cases hm : m.id = i
          · simp [hm]
          · simp [hm, List.mem_cons]
            intro k hk
            exact (ih.mp hr) k hk

/-- Every member of the snapshot is found by the index lookup on its own
id (some node with that id is returned, not necessarily this one). -/
theorem mapGet_isSome_of_mem (ns : List Node) (n : Node) (h : n ∈ ns) :
    (mapGet ns n.id).isSome := by
  induction ns with
  | nil => simp at h
  | cons m rest ih =>
      simp only [mapGet]
      cases hr : mapGet rest n.id with
      | some m2 => simp
      | none =>
          rcases List.mem_cons.mp h with h1 | h2
          · subst h1
            simp
          · have := ih h2
            rw [hr] at this
            simp at this

/-- Under unique ids, the index lookup on a member's id returns that very
member. -/
theorem mapGet_nodup (ns : List Node) (hnd : (ns.map Node.id).Nodup)
    (n : Node) (h : n ∈ ns) : mapGet ns n.id = some n := by
  induction ns with
  | nil => simp at h
  | cons m rest ih =>
      simp only [List.map_cons, List.nodup_cons] at hnd
      obtain ⟨hm, hrest⟩ := hnd
      simp only [mapGet]
      rcases List.mem_cons.mp h with h1 | h2
      · subst h1
        have hnone : mapGet rest n.id = none := by
          rw [mapGet_eq_none_iff]
          intro k hk hkid
          exact hm (hkid ▸ List.mem_map_of_mem Node.id hk)
        rw [hnone]
        simp
      · rw [ih hrest h2]

/-- The fallible map only depends on the function's values on the
list. -/
theorem mapMExcept_congr {α β : Type} (f g : α → Except WError β)
    (l : List α) (h : ∀ a ∈ l, f a = g a) :
    mapMExcept f l = mapMExcept g l := by
  induction l with
  | nil => rfl
  | cons a rest ih =>
      simp only [mapMExcept]
      rw [h a (List.mem_cons_self a rest),
        ih (fun b hb => h b (List.mem_cons_of_mem _ hb))]

/-- When the function succeeds on every element, the fallible map is the
plain map. -/
theorem mapMExcept_ok_map {α β : Type} (f : α → Except WError β)
    (g : α → β) (l : List α) (h : ∀ a ∈ l, f a = .ok (g a)) :
    mapMExcept f l = .ok (l.map g) := by
  induction l with
  | nil => rfl
  | cons a rest ih =>
      simp only [mapMExcept, List.map_cons]
      rw [h a (List.mem_cons_self a rest),
        ih (fun b hb => h b (List.mem_cons_of_mem _ hb))]

/-- Every element of a successful fallible map comes from applying the
function to some list element. -/
theorem mapMExcept_ok_mem {α β : Type} (f : α → Except WError β)
    (l : List α) (bs : List β) (h : mapMExcept f l = .ok bs) (b : β)
    (hb : b ∈ bs) : ∃ a ∈ l, f a = .ok b := by
  induction l generalizing bs with
  | nil =>
      simp only [mapMExcept] at h
      cases h
      simp at hb
  | cons a rest ih =>
      simp only [mapMExcept] at h
      cases hfa : f a with
      | error e => rw [hfa] at h; cases h
      | ok b0 =>
          rw [hfa] at h
          cases hrest : mapMExcept f rest with
          | error e => rw [hrest] at h; cases h
          | ok bs0 =>
              rw [hrest] at h
              cases h
              rcases List.mem_cons.mp hb with h1 | h2
              · subst h1
                exact ⟨a, List.mem_cons_self a rest, hfa⟩
              · obtain ⟨a2, ha2, hfa2⟩ := ih bs0 hrest h2
                exact ⟨a2, List.mem_cons_of_mem _ ha2, hfa2⟩

/-- A fallible map over a list on which the function always succeeds
succeeds. -/
theorem mapMExcept_isOk {α β : Type} (f : α → Except WError β)
    (l : List α) (h : ∀ a ∈ l, (f a).isOk) : (mapMExcept f l).isOk := by
  induction l with
  | nil => rfl
  | cons a rest ih =>
      simp only [mapMExcept]
      cases hfa : f a with
      | error e =>
          have := h a (List.mem_cons_self a rest)
          rw [hfa] at this
          simp [Except.isOk, Except.toBool] at this
      | ok b =>
          cases hrest : mapMExcept f rest with
          | error e =>
              have := ih (fun x hx => h x (List.mem_cons_of_mem _ hx))
              rw [hrest] at this
              simp [Except.isOk, Except.toBool] at this
          | ok bs => simp [Except.isOk, Except.toBool]

/-- When the requested id is in the index, hierarchy materialization
succeeds at every depth (recursive lookups are on ids of snapshot
members, which are always in the index). -/
theorem getNodeWithChildren_isOk (ns : List Node) :
    ∀ (d : Nat) (i : String), (mapGet ns i).isSome →
      (getNodeWithChildren ns d i).isOk := by
  intro d
  induction d using Nat.strong_induction_on with
  | _ d ih =>
    intro i hi
    obtain ⟨node, hnode⟩ := Option.isSome_iff_exists.mp hi
    cases d with
    | zero => simp [getNodeWithChildren, hnode, Except.isOk, Except.toBool]
    | succ d1 =>
      cases d1 with
      | zero => simp [getNodeWithChildren, hnode, Except.isOk, Except.toBool]
      | succ e =>
          simp only [getNodeWithChildren, hnode]
          have hok : (mapMExcept
              (fun c => getNodeWithChildren ns (e + 1) c.id)
              (childrenOf ns i)).isOk := by
            apply mapMExcept_isOk
            intro c hc
            have hcmem : c ∈ ns := (List.mem_filter.mp hc).1
            exact ih (e + 1) (by omega) c.id
              (mapGet_isSome_of_mem ns c hcmem)
          cases hres : mapMExcept (fun c => getNodeWithChildren ns (e + 1) c.id)
              (childrenOf ns i) with
          | error e2 =>
              rw [hres] at hok
              simp [Except.isOk, Except.toBool] at hok
          | ok cs => simp [Except.isOk, Except.toBool]

/-- Hierarchy materialization fails (with `notFound`) exactly when the
requested id is absent from the index. -/
theorem getNodeWithChildren_notFound_iff (ns : List Node) (d : Nat)
    (i : String) :
    getNodeWithChildren ns d i = .error (.notFound i) ↔
      mapGet ns i = none := by
  constructor
  · intro h
    cases hget : mapGet ns i with
    | none => rfl
    | some node =>
        have hok := getNodeWithChildren_isOk ns d i (by simp [hget])
        rw [h] at hok
        simp [Except.isOk, Except.toBool] at hok
  · intro h
    cases d with
    | zero => simp [getNodeWithChildren, h]
    | succ d1 =>
      cases d1 with
      | zero => simp [getNodeWithChildren, h]
      | succ e => simp [getNodeWithChildren, h]

/-- Under unique ids, the code's hierarchy recursion (no recursive call
at depth 1, plain copies there) agrees with the spec's uniform recursion
(recurse with `depth - 1` on each attached child until the counter
reaches 0). -/
theorem getNodeWithChildren_eq_spec (ns : List Node)
    (hnd : (ns.map Node.id).Nodup) :
    ∀ (d : Nat) (i : String),
      getNodeWithChildren ns d i = getWithChildrenSpec ns d i := by
  intro d
  induction d using Nat.strong_induction_on with
  | _ d ih =>
    intro i
    cases d with
    | zero => rfl
    | succ d1 =>
      cases d1 with
      | zero =>
          rw [getNodeWithChildren.eq_2, getWithChildrenSpec.eq_2]
          cases hnode : mapGet ns i with
          | none => rfl
          | some node =>
              have hok : mapMExcept
                  (fun c => getWithChildrenSpec ns 0 c.id)
                  (childrenOf ns i) =
                    .ok ((childrenOf ns i).map fun c => (⟨c, none⟩ : NTree)) := by
                apply mapMExcept_ok_map
                intro c hc
                have hcmem : c ∈ ns := (List.mem_filter.mp hc).1
                have hcg : mapGet ns c.id = some c :=
                  mapGet_nodup ns hnd c hcmem
                simp [getWithChildrenSpec, hcg]
              rw [hok]
      | succ e =>
          rw [getNodeWithChildren.eq_3, getWithChildrenSpec.eq_2]
          cases hnode : mapGet ns i with
          | none => rfl
          | some node =>
              rw [mapMExcept_congr
                (fun c => getNodeWithChildren ns (e + 1) c.id)
                (fun c => getWithChildrenSpec ns (e + 1) c.id)
                (childrenOf ns i)
                (fun c _ => ih (e + 1) (by omega) c.id)]

/-- C6: hierarchy materialization fails with `notFound` exactly when the
requested id is absent from the id-to-node index built from the
snapshot; otherwise (under the data model's unique ids) it behaves as
the spec's recursion — a copy of the node, the nodes whose parent id
equals the requested id attached in snapshot order when `depth > 0`,
each child expanded by recursing with `depth - 1` until the counter
reaches 0, so a child at the boundary has no further descendants
attached. -/
theorem hierarchy_matches_spec (ns : List Node) (i : String) (d : Nat)
    (hnd : (ns.map Node.id).Nodup) :
    getNodeWithChildren ns d i = getWithChildrenSpec ns d i ∧
    (getNodeWithChildren ns d i = .error (.notFound i) ↔
      mapGet ns i = none) :=
  ⟨getNodeWithChildren_eq_spec ns hnd d i,
   getNodeWithChildren_notFound_iff ns d i⟩

/-- Witness for C6 on the P6 snapshot at depth 2. -/
theorem hierarchy_matches_spec_w :
    ((ns6.map Node.id).Nodup) ∧
    (getNodeWithChildren ns6 2 "root" = getWithChildrenSpec ns6 2 "root" ∧
     (getNodeWithChildren ns6 2 "root" = .error (.notFound "root") ↔
       mapGet ns6 "root" = none)) :=
  ⟨by decide, hierarchy_matches_spec ns6 "root" 2 (by decide)⟩

/-- A list of trees each no taller than `b` has `heightList` at most
`b`. -/
theorem heightList_le (l : List NTree) (b : Nat)
    (h : ∀ t ∈ l, NTree.height t ≤ b) : heightList l ≤ b := by
  induction l with
  | nil => simp [heightList]
  | cons t ts ih =>
      simp only [heightList]
      exact max_le (h t (List.mem_cons_self t ts))
        (ih fun s hs => h s (List.mem_cons_of_mem _ hs))

/-- The height of every hierarchy result is bounded by the depth counter
plus one. -/
theorem heightE_le (ns : List Node) :
    ∀ (d : Nat) (i : String), heightE (getNodeWithChildren ns d i) ≤ d + 1 := by
  intro d
  induction d using Nat.strong_induction_on with
  | _ d ih =>
    intro i
    cases d with
    | zero =>
        cases hnode : mapGet ns i with
        | none => simp [getNodeWithChildren, hnode, heightE]
        | some node =>
            simp [getNodeWithChildren, hnode, heightE, NTree.height]
    | succ d1 =>
      cases d1 with
      | zero =>
          cases hnode : mapGet ns i with
          | none => simp [getNodeWithChildren, hnode, heightE]
          | some node =>
              simp only [getNodeWithChildren, hnode, heightE, NTree.height]
              have hb : heightList
                  ((childrenOf ns i).map fun c => (⟨c, none⟩ : NTree)) ≤ 1 := by
                apply heightList_le
                intro t ht
                obtain ⟨c, _, hc⟩ := List.mem_map.mp ht
                rw [← hc]
                simp [NTree.height]
              omega
      | succ e =>
          cases hnode : mapGet ns i with
          | none => simp [getNodeWithChildren, hnode, heightE]
          | some node =>
              rw [getNodeWithChildren.eq_3]
              rw [hnode]
              cases hres : mapMExcept
                  (fun c => getNodeWithChildren ns (e + 1) c.id)
                  (childrenOf ns i) with
              | error e2 => simp [heightE]
              | ok cs =>
                  simp only [heightE, NTree.height]
                  have hb : heightList cs ≤ e + 2 := by
                    apply heightList_le
                    intro t ht
                    obtain ⟨c, hcmem, hc⟩ :=
                      mapMExcept_ok_mem _ _ _ hres t ht
                    have := ih (e + 1) (by omega) c.id
                    rw [hc] at this
                    simpa [heightE] using this
                  omega

/-- C4: hierarchy materialization is total — its expansion height is
bounded by the depth counter alone, with no visited-set tracking, for
every snapshot including ones violating the tree invariant; on the
snapshot containing only the self-parenting node `x`, the depth-5
expansion terminates with `x` appearing as its own descendant exactly 5
times. -/
theorem hierarchy_terminates_depth_bounded :
    (∀ (ns : List Node) (d : Nat) (i : String),
      heightE (getNodeWithChildren ns d i) ≤ d + 1) ∧
    getNodeWithChildren [selfNode] 5 "x" = .ok selfChain ∧
    NTree.descCount selfChain = 5 :=
  ⟨fun ns d i => heightE_le ns d i, rfl, rfl⟩

/-- C8 (the code violates it): the dispatch layer performs no depth
validation — the tool schema declares `minimum: 0, maximum: 5`, but a
hierarchy request with depth 6 is processed exactly as given, expanding
all seven levels of the chain down to `a6`, instead of being rejected (or
clamped: the depth-5 expansion, shown alongside, stops at `a5`). -/
theorem hierarchy_depth_not_validated :
    handleGetNodeHierarchy chainNodes "a0" (some 6) = .ok chainTree6 ∧
    NTree.height chainTree6 = 7 ∧
    handleGetNodeHierarchy chainNodes "a0" (some 5) = .ok chainTree5 ∧
    NTree.height chainTree5 = 6 := ⟨rfl, rfl, rfl, rfl⟩

/-- C9: the `workflowy_get_node_hierarchy` handler passes `depth || 1`,
so a request with depth 0 is executed as depth 1: for any snapshot and
any id present in the index, the caller receives the node together with
its direct children attached. -/
theorem hierarchy_depth_zero_becomes_one (ns : List Node)
    (nodeId : String) :
    handleGetNodeHierarchy ns nodeId (some 0) =
      getNodeWithChildrenJS ns nodeId 1 ∧
    (∀ node, mapGet ns nodeId = some node →
      handleGetNodeHierarchy ns nodeId (some 0) =
        .ok ⟨node, some ((childrenOf ns nodeId).map fun c => ⟨c, none⟩)⟩) := by
  constructor
  · rfl
  · intro node h
    simp [handleGetNodeHierarchy, getNodeWithChildrenJS,
      getNodeWithChildren, h]

/-- Witness for C9 on the P6 snapshot. -/
theorem hierarchy_depth_zero_becomes_one_w :
    (handleGetNodeHierarchy ns6 "root" (some 0) =
        getNodeWithChildrenJS ns6 "root" 1) ∧
    (mapGet ns6 "root" = some ⟨"root", none, some "r", none⟩) ∧
    (handleGetNodeHierarchy ns6 "root" (some 0) =
      .ok ⟨⟨"root", none, some "r", none⟩,
        some ((childrenOf ns6 "root").map fun c => ⟨c, none⟩)⟩) :=
  ⟨(hierarchy_depth_zero_becomes_one ns6 "root").1, by decide,
   (hierarchy_depth_zero_becomes_one ns6 "root").2
     ⟨"root", none, some "r", none⟩ (by decide)⟩

/-- Allocation only appends: every existing array is unchanged. -/
theorem Heap.get_alloc (h : Heap) (v : List Node) (i : Nat)
    (hi : i < h.arrays.length) : (h.alloc v).2.get i = h.get i := by
  simp only [Heap.alloc, Heap.get, List.getD]
  rw [List.get?_eq_getElem?, List.get?_eq_getElem?, List.getElem?_append_left hi]

/-- The fetch/fallback logic never mutates an existing array. -/
theorem refreshCacheRef_preserves (now : Int) (st : CacheRState)
    (heap : Heap) (fetch : FetchOutcome) (i : Nat)
    (hi : i < heap.arrays.length) :
    (refreshCacheRef now st heap fetch).heap.get i = heap.get i := by
  cases fetch with
  | success nodesOpt =>
      simp only [refreshCacheRef]
      exact Heap.get_alloc heap _ i hi
  | rateLimited retryOpt =>
      cases hd : st.dataRef <;> simp [refreshCacheRef, hd]
  | failure e => rfl

/-- `getAllNodes` never mutates an existing array: the cache hit and the
stale fallback return with the heap untouched, and a successful fetch
only allocates. -/
theorem getAllNodesRef_preserves (force : Bool) (now : Int)
    (st : CacheRState) (heap : Heap) (fetch : FetchOutcome) (i : Nat)
    (hi : i < heap.arrays.length) :
    (getAllNodesRef force now st heap fetch).heap.get i = heap.get i := by
  cases hd : st.dataRef with
  | none =>
      simp only [getAllNodesRef, hd]
      exact refreshCacheRef_preserves now st heap fetch i hi
  | some r =>
      simp only [getAllNodesRef, hd]
      by_cases hfresh : (ageLt (cacheAgeRef st now) st.ttl && !force) = true
      · simp [hfresh]
      · simp only [Bool.not_eq_true] at hfresh
        simp [hfresh]
        exact refreshCacheRef_preserves now st heap fetch i hi

/-- C7 as stated is false at a concrete state: a fresh-cache read
returns the cache entry's own array reference (reference 0, the very
reference stored in `dataRef`), not a copy. -/
theorem read_returns_reference_cex :
    (getAllNodesRef false 20 ⟨some 0, some 10, 90000⟩ ⟨[[selfNode]]⟩
        (.failure (.upstream 500 "boom"))).ref = .ok 0 ∧
    (⟨some 0, some 10, 90000⟩ : CacheRState).dataRef = some 0 := by
  decide

/-- C7 (amended): `getSnapshot` on a fresh hit returns the cache entry's
own sequence (the stored reference itself) rather than a copy, while
`search` and `getWithChildren` results are newly built structures; and no
read operation — snapshot read, search, or hierarchy materialization —
ever mutates an array owned by the cache (the heap is only extended by
allocation). -/
theorem reads_never_mutate_cache :
    (∀ (st : CacheRState) (heap : Heap) (now : Int) (fr : FetchOutcome)
        (r : Nat), st.dataRef = some r →
      (ageLt (cacheAgeRef st now) st.ttl && !false) = true →
      getAllNodesRef false now st heap fr = ⟨.ok r, st, heap⟩) ∧
    (∀ (force : Bool) (now : Int) (st : CacheRState) (heap : Heap)
        (fr : FetchOutcome) (i : Nat), i < heap.arrays.length →
      (getAllNodesRef force now st heap fr).heap.get i = heap.get i) ∧
    (∀ (q : String) (sn snote cs : Bool) (mr : Nat) (now : Int)
        (st : CacheRState) (heap : Heap) (fr : FetchOutcome) (i : Nat),
      i < heap.arrays.length →
      (searchNodesRef q sn snote cs mr now st heap fr).2.2.get i =
        heap.get i) ∧
    (∀ (nid : String) (d : Nat) (now : Int) (st : CacheRState)
        (heap : Heap) (fr : FetchOutcome) (i : Nat),
      i < heap.arrays.length →
      (getNodeWithChildrenRef nid d now st heap fr).2.2.get i =
        heap.get i) := by
  refine ⟨?_, ?_, ?_, ?_⟩
  · intro st heap now fr r hr hfresh
    have hf2 : ageLt (cacheAgeRef st now) st.ttl = true := by
      simpa using hfresh
    simp [getAllNodesRef, hr, hf2]
  · intro force now st heap fr i hi
    exact getAllNodesRef_preserves force now st heap fr i hi
  · intro q sn snote cs mr now st heap fr i hi
    have hp := getAllNodesRef_preserves false now st heap fr i hi
    unfold searchNodesRef
    cases hres : getAllNodesRef false now st heap fr with
    | mk ref st2 heap2 =>
        rw [hres] at hp
        cases ref <;> simpa using hp
  · intro nid d now st heap fr i hi
    have hp := getAllNodesRef_preserves false now st heap fr i hi
    unfold getNodeWithChildrenRef
    cases hres : getAllNodesRef false now st heap fr with
    | mk ref st2 heap2 =>
        rw [hres] at hp
        cases ref <;> simpa using hp

/-- Witness for C7: each conjunct applied at concrete states and
heaps. -/
theorem reads_never_mutate_cache_w :
    ((⟨some 0, some 10, 90000⟩ : CacheRState).dataRef = some 0) ∧
    ((ageLt (cacheAgeRef ⟨some 0, some 10, 90000⟩ 20)
        (⟨some 0, some 10, 90000⟩ : CacheRState).ttl && !false) = true) ∧
    (getAllNodesRef false 20 ⟨some 0, some 10, 90000⟩ ⟨[[selfNode]]⟩
        (.failure (.upstream 500 "boom")) =
      ⟨.ok 0, ⟨some 0, some 10, 90000⟩, ⟨[[selfNode]]⟩⟩) ∧
    ((0 : Nat) < (⟨[[selfNode]]⟩ : Heap).arrays.length) ∧
    ((getAllNodesRef true 20 ⟨some 0, some 10, 90000⟩ ⟨[[selfNode]]⟩
        (.success (some []))).heap.get 0 =
      (⟨[[selfNode]]⟩ : Heap).get 0) ∧
    ((searchNodesRef "q" true true false 100 20 ⟨some 0, some 10, 90000⟩
        ⟨[[selfNode]]⟩ (.failure (.upstream 500 "boom"))).2.2.get 0 =
      (⟨[[selfNode]]⟩ : Heap).get 0) ∧
    ((getNodeWithChildrenRef "x" 1 20 ⟨some 0, some 10, 90000⟩
        ⟨[[selfNode]]⟩ (.failure (.upstream 500 "boom"))).2.2.get 0 =
      (⟨[[selfNode]]⟩ : Heap).get 0) :=
  ⟨rfl, by decide,
   reads_never_mutate_cache.1 ⟨some 0, some 10, 90000⟩ ⟨[[selfNode]]⟩ 20
     (.failure (.upstream 500 "boom")) 0 rfl (by decide),
   by decide,
   reads_never_mutate_cache.2.1 true 20 ⟨some 0, some 10, 90000⟩
     ⟨[[selfNode]]⟩ (.success (some [])) 0 (by decide),
   reads_never_mutate_cache.2.2.1 "q" true true false 100 20
     ⟨some 0, some 10, 90000⟩ ⟨[[selfNode]]⟩
     (.failure (.upstream 500 "boom")) 0 (by decide),
   reads_never_mutate_cache.2.2.2 "x" 1 20 ⟨some 0, some 10, 90000⟩
     ⟨[[selfNode]]⟩ (.failure (.upstream 500 "boom")) 0 (by decide)⟩
